import Mathlib

/-!
Shallow embedding of `src/imageserver.py`, a small Flask image-hosting
server backed by an S3-style object store and a peewee database.

Modelling conventions:
* the metadata registry (`database.Image`) is a `List ImageRecord` kept in
  insertion order (the enumeration order that `select()` yields rows in);
* the object store is a list of `(bucket, key)` pairs; the local staging
  directory is a list of file paths;
* external effects that can raise (`file.save`, the object-store upload,
  the registry insert) are driven by boolean oracles in `UploadEnv`; the
  random shortcode candidates, the fresh guid and the current time are
  explicit inputs;
* each route handler is a pure function from its inputs and the pre-state
  to a result, the post-state, and the ordered trace of the external side
  effects it performed.
-/

namespace ImageServer

/-- Configuration values read from `config.py` (consumed, not owned, by
the server): the extension allow-list, the staging directory, the object
store bucket/path/endpoint, and the public app path. -/
structure Config where
  file_extentions : List String
  upload_directory : String
  app_path : String
  aws_s3_endpoint : String
  aws_s3_bucket_id : String
  aws_s3_bucket_path : String
  deriving DecidableEq, Repr

/-- Model of `os.path.join` on POSIX restricted to two components, as used
at `imageserver.py:69`, `:156` and `:161`. -/
def pathJoin (a b : String) : String :=
  if b.toList.head? = some '/' then b
  else if a = "" then b
  else if a.toList.getLast? = some '/' then a ++ b
  else a ++ "/" ++ b

/-- Suffix of a character list strictly after its last dot. -/
def afterLastDot (l : List Char) : List Char :=
  (l.reverse.takeWhile (fun c => c != '.')).reverse

/-- Embedding of `strip_extenstion` (imageserver.py:27-36): Python
`filename.lower().rsplit('.', 1)[1]` when the name has a dot (the
lowercased suffix after the last dot), `None` otherwise. -/
def strip_extenstion (filename : String) : Option String :=
  if filename.toList.contains '.' then
    some (String.mk (afterLastDot (filename.toList.map Char.toLower)))
  else
    none

/-- Embedding of `is_acceptable_filename` (imageserver.py:38-46).  Python
evaluates `strip_extenstion(filename) in ALLOWED_EXTENSIONS`; since the
allow-list holds only strings, `None` is never a member. -/
def is_acceptable_filename (cfg : Config) (filename : String) : Bool :=
  match strip_extenstion filename with
  | some ext => cfg.file_extentions.contains ext
  | none => false

/-- Record stored by `add_to_database` (imageserver.py:72-73); field names
follow the `database.Image` columns. -/
structure ImageRecord where
  image_guid : String
  bucket : String
  filename : String
  url : String
  accessability : Nat
  passphrase : Option String
  timestamp : Int
  deriving DecidableEq, Repr

/-- State of the external collaborators: registry rows in insertion
order, object-store contents as (bucket, key) pairs, staged local files. -/
structure SysState where
  db : List ImageRecord
  s3 : List (String × String)
  localFiles : List String
  deriving DecidableEq, Repr

/-- Externally observable side effects, in the order they happen. -/
inductive Event where
  | localSave (path : String)
  | s3Put (bucket key : String)
  | dbCreate (url : String)
  | localRemove (path : String)
  | s3Delete (bucket key : String)
  | dbDelete (url : String)
  deriving DecidableEq, Repr

/-- Existence check `database.Image.select().where(Image.url == u).exists()`. -/
def existsUrl (db : List ImageRecord) (u : String) : Bool :=
  db.any (fun r => r.url == u)

/-- The shortcode loop at imageserver.py:151-153: `cands` is the trace of
`generate_random_string()` outputs and the loop takes the first candidate
not present in the registry; `none` models the loop running forever
because the finite trace holds no fresh candidate. -/
def findFresh (cands : List String) (db : List ImageRecord) : Option String :=
  cands.find? (fun c => !existsUrl db c)

/-- Message at imageserver.py:139. -/
def noFileMsg : String := "Error: no file was provided"

/-- Message of the blanket handler at imageserver.py:168. -/
def dbErrorMsg : String :=
  "An error occured while accessing the database. Please try again later."

/-- Message at imageserver.py:143. -/
def invalidFileMsg (cfg : Config) : String :=
  "Error: An invalid file was provided. Files must be one of the following: " ++
    String.intercalate ", " (cfg.file_extentions.map (fun x => "." ++ x))

/-- Outcome oracles for the three fallible external calls inside the
`try` block of `upload_img`: `file.save`, the S3 upload, and the registry
insert (`false` means the call raises; for the insert this covers any
database error, a uniqueness violation included). -/
structure UploadEnv where
  saveOk : Bool
  s3Ok : Bool
  dbOk : Bool
  deriving DecidableEq, Repr

/-- Embedding of `add_to_database` (imageserver.py:72-73): inserts one row
with default accessability 1 and null passphrase. -/
def add_to_database (bucket guid filename url : String) (timestamp : Int)
    (db : List ImageRecord) : List ImageRecord :=
  db ++ [{ image_guid := guid, bucket := bucket, filename := filename, url := url,
           accessability := 1, passphrase := none, timestamp := timestamp }]

/-- Embedding of the POST branch of `upload_img` (imageserver.py:130-168).
`fileProvided` models the `if not file` check, `origName` is
`file.filename`, `guid` the fresh `uuid.uuid4()`, `now` is
`int(time.time())`.  Execution mirrors the source order: validate, build
`new_filename`, enter the `try` block (shortcode loop, `file.save`, S3
upload via `make_s3_upload`, `add_to_database`, `os.remove`); the first
oracle failure jumps to the `except` handler, keeping the state changes
already made. -/
def upload_img (cfg : Config) (fileProvided : Bool) (origName guid : String)
    (cands : List String) (now : Int) (env : UploadEnv) (st : SysState) :
    Option (String × SysState × List Event) :=
  if !fileProvided then
    some (noFileMsg, st, [])
  else
    match strip_extenstion origName with
    | none => some (invalidFileMsg cfg, st, [])
    | some ext =>
      if !cfg.file_extentions.contains ext then
        some (invalidFileMsg cfg, st, [])
      else
        match findFresh cands st.db with
        | none => none
        | some new_url =>
          let new_filename := guid ++ "." ++ ext
          let local_temp_path := pathJoin cfg.upload_directory new_filename
          if !env.saveOk then
            some (dbErrorMsg, st, [])
          else
            let st1 : SysState := { st with localFiles := st.localFiles ++ [local_temp_path] }
            let s3_path := pathJoin cfg.aws_s3_bucket_path new_filename
            if !env.s3Ok then
              some (dbErrorMsg, st1, [Event.localSave local_temp_path])
            else
              let st2 : SysState := { st1 with s3 := st1.s3 ++ [(cfg.aws_s3_bucket_id, s3_path)] }
              if !env.dbOk then
                some (dbErrorMsg, st2,
                  [Event.localSave local_temp_path, Event.s3Put cfg.aws_s3_bucket_id s3_path])
              else
                let st3 : SysState := { st2 with
                  db := add_to_database cfg.aws_s3_bucket_id guid s3_path new_url now st2.db }
                let st4 : SysState := { st3 with
                  localFiles := st3.localFiles.filter (fun p => p != local_temp_path) }
                some (cfg.app_path ++ "/" ++ (new_url ++ ".png"), st4,
                  [Event.localSave local_temp_path, Event.s3Put cfg.aws_s3_bucket_id s3_path,
                   Event.dbCreate new_url, Event.localRemove local_temp_path])

/-- Result of the retrieval route: the `'404'` page or the rendered
template carrying the fully qualified object-store URL. -/
inductive GetResult where
  | notFound
  | found (aws_url : String)
  deriving DecidableEq, Repr

/-- Python `filename.split('.')[0]`: the prefix before the first dot (the
source guards it with `if '.' in filename`, imageserver.py:115-116). -/
def stripAfterFirstDot (filename : String) : String :=
  if filename.toList.contains '.' then
    String.mk (filename.toList.takeWhile (fun c => c != '.'))
  else filename

/-- Embedding of `get_image` (imageserver.py:109-125): strip the trailing
extension, look the shortcode up in the registry (first matching row),
and build the remote URL from the endpoint and the row's bucket and
filename. -/
def get_image (cfg : Config) (db : List ImageRecord) (filename : String) : GetResult :=
  let fn := stripAfterFirstDot filename
  match db.find? (fun r => r.url == fn) with
  | none => GetResult.notFound
  | some r =>
    GetResult.found ("http://" ++ cfg.aws_s3_endpoint ++ "/" ++ r.bucket ++ "/" ++ r.filename)

/-- View model built by `get_images` for each row (models.Image with the
keyword arguments of imageserver.py:79-86; the display URL uses a literal
backslash, as the Python format string does). -/
structure ImageModel where
  file_url : String
  display_url : String
  timestamp : Int
  shortcode : String
  deriving DecidableEq, Repr

/-- Conversion of one registry row to its view model (imageserver.py:79-86). -/
def toImageModel (cfg : Config) (r : ImageRecord) : ImageModel :=
  { file_url := "http://" ++ cfg.aws_s3_endpoint ++ "/" ++ r.bucket ++ "/" ++ r.filename,
    display_url := cfg.app_path ++ "\\" ++ r.url,
    timestamp := r.timestamp,
    shortcode := r.url }

/-- Comparison realised by `sorted(image_list, key=lambda image: -image.timestamp)`:
Python sorts ascending by the key `-timestamp`, stably. -/
def keyLe (a b : ImageModel) : Prop := -a.timestamp ≤ -b.timestamp

instance : DecidableRel keyLe :=
  fun a b => inferInstanceAs (Decidable (-a.timestamp ≤ -b.timestamp))

/-- Embedding of `get_images` (imageserver.py:75-89).  Python `sorted` is
the stable ascending sort by the key; `List.insertionSort keyLe` computes
exactly that stable order. -/
def get_images (cfg : Config) (db : List ImageRecord) : List ImageModel :=
  List.insertionSort keyLe (db.map (toImageModel cfg))

/-- Characters kept by the werkzeug sanitizer regex `[A-Za-z0-9_.-]`,
stated on ASCII codes (65-90 upper, 97-122 lower, 48-57 digits). -/
def goodChar (c : Char) : Bool :=
  decide ((65 ≤ c.toNat ∧ c.toNat ≤ 90) ∨ (97 ≤ c.toNat ∧ c.toNat ≤ 122)
    ∨ (48 ≤ c.toNat ∧ c.toNat ≤ 57) ∨ c = '_' ∨ c = '.' ∨ c = '-')

/-- Whitespace recognised by Python `str.split()` with no argument. -/
def pySpace (c : Char) : Bool :=
  c == ' ' || c == '\t' || c == '\n' || c == '\r' || c == '\x0b' || c == '\x0c'

/-- Split a character list at every whitespace character, keeping empty
segments (the segments between consecutive separators). -/
def wsSplit : List Char → List (List Char)
  | [] => [[]]
  | c :: rest =>
    if pySpace c then [] :: wsSplit rest
    else
      match wsSplit rest with
      | [] => [[c]]
      | p :: ps => (c :: p) :: ps

/-- Characters removed from both ends by the final `.strip("._")`. -/
def stripDotUnderscore (c : Char) : Bool := c == '.' || c == '_'

/-- Drop leading and trailing characters satisfying `stripDotUnderscore`. -/
def stripEdges (l : List Char) : List Char :=
  ((l.dropWhile stripDotUnderscore).reverse.dropWhile stripDotUnderscore).reverse

/-- Model of `werkzeug.utils.secure_filename` on POSIX (the sanitizer
called at imageserver.py:179; werkzeug is an external dependency, so this
follows its published algorithm): coerce to ASCII (the NFKD+encode step is
approximated by dropping non-ASCII characters), replace the path
separator by a space, join the whitespace-split pieces with
underscores, delete every character outside `[A-Za-z0-9_.-]`, and strip
leading and trailing dots and underscores. -/
def sanitizeList (l : List Char) : List Char :=
  stripEdges
    ((List.intercalate ['_']
        ((wsSplit ((l.filter (fun c => decide (c.toNat < 128))).map
            (fun c => if c == '/' then ' ' else c))).filter
          (fun q => !q.isEmpty))).filter goodChar)

/-- String-level wrapper of the sanitizer pipeline. -/
def secure_filename (s : String) : String :=
  String.mk (sanitizeList s.toList)

/-- Result of the delete route. -/
inductive DeleteResult where
  | invalidParams
  | notFound
  | deleted
  | redirected (location : String)
  deriving DecidableEq, Repr

/-- Removal of the fetched row (`image.delete_instance()`): the row
returned by `query[0]` is the first match, so exactly the first matching
row disappears. -/
def removeFirst (p : ImageRecord → Bool) : List ImageRecord → List ImageRecord
  | [] => []
  | r :: rs => if p r then rs else r :: removeFirst p rs

/-- Embedding of `delete_img` (imageserver.py:172-194), after the basic
auth decorator has admitted the request.  `filenameArg` is the `filename`
query parameter with `""` standing for both a missing and an empty value
(both falsy in Python); the shortcode is sanitized with
`secure_filename` before the lookup; on a hit the remote object is
deleted from the object store and then the row is deleted. -/
def delete_img (cfg : Config) (filenameArg : String) (redirectArg : Option String)
    (st : SysState) : DeleteResult × SysState × List Event :=
  if filenameArg = "" then (DeleteResult.invalidParams, st, [])
  else
    let sanitized := secure_filename filenameArg
    match st.db.find? (fun r => r.url == sanitized) with
    | none => (DeleteResult.notFound, st, [])
    | some image =>
      let st1 : SysState :=
        { st with s3 := st.s3.filter (fun o => o != (cfg.aws_s3_bucket_id, image.filename)) }
      let st2 : SysState := { st1 with db := removeFirst (fun r => r.url == sanitized) st1.db }
      let events := [Event.s3Delete cfg.aws_s3_bucket_id image.filename,
                     Event.dbDelete image.url]
      let res : DeleteResult :=
        match redirectArg with
        | some rd =>
          if rd = "" then DeleteResult.deleted
          else DeleteResult.redirected ("/" ++ rd ++ "/")
        | none => DeleteResult.deleted
      (res, st2, events)

/-! Branch computation lemmas for `upload_img`: one equation per control
path of the handler, proved by unfolding the definition. -/

theorem upload_img_no_file (cfg : Config) (origName guid : String) (cands : List String)
    (now : Int) (env : UploadEnv) (st : SysState) :
    upload_img cfg false origName guid cands now env st = some (noFileMsg, st, []) := by
  simp [upload_img]

theorem upload_img_no_ext (cfg : Config) (origName guid : String) (cands : List String)
    (now : Int) (env : UploadEnv) (st : SysState)
    (hstrip : strip_extenstion origName = none) :
    upload_img cfg true origName guid cands now env st = some (invalidFileMsg cfg, st, []) := by
  simp [upload_img, hstrip]

theorem upload_img_bad_ext (cfg : Config) (origName guid : String) (cands : List String)
    (now : Int) (env : UploadEnv) (st : SysState) (ext : String)
    (hstrip : strip_extenstion origName = some ext)
    (hct : cfg.file_extentions.contains ext = false) :
    upload_img cfg true origName guid cands now env st = some (invalidFileMsg cfg, st, []) := by
  have hm : ext ∉ cfg.file_extentions := by simpa using hct
  simp [upload_img, hstrip, hm]

theorem upload_img_no_fresh (cfg : Config) (origName guid : String) (cands : List String)
    (now : Int) (env : UploadEnv) (st : SysState) (ext : String)
    (hstrip : strip_extenstion origName = some ext)
    (hct : cfg.file_extentions.contains ext = true)
    (hfr : findFresh cands st.db = none) :
    upload_img cfg true origName guid cands now env st = none := by
  have hm : ext ∈ cfg.file_extentions := by simpa using hct
  simp [upload_img, hstrip, hm, hfr]

theorem upload_img_save_fails (cfg : Config) (origName guid : String) (cands : List String)
    (now : Int) (env : UploadEnv) (st : SysState) (ext u : String)
    (hstrip : strip_extenstion origName = some ext)
    (hct : cfg.file_extentions.contains ext = true)
    (hfr : findFresh cands st.db = some u)
    (hsv : env.saveOk = false) :
    upload_img cfg true origName guid cands now env st = some (dbErrorMsg, st, []) := by
  have hm : ext ∈ cfg.file_extentions := by simpa using hct
  simp [upload_img, hstrip, hm, hfr, hsv]

theorem upload_img_s3_fails (cfg : Config) (origName guid : String) (cands : List String)
    (now : Int) (env : UploadEnv) (st : SysState) (ext u : String)
    (hstrip : strip_extenstion origName = some ext)
    (hct : cfg.file_extentions.contains ext = true)
    (hfr : findFresh cands st.db = some u)
    (hsv : env.saveOk = true) (hs3 : env.s3Ok = false) :
    upload_img cfg true origName guid cands now env st =
      some (dbErrorMsg,
        { st with localFiles :=
            st.localFiles ++ [pathJoin cfg.upload_directory (guid ++ "." ++ ext)] },
        [Event.localSave (pathJoin cfg.upload_directory (guid ++ "." ++ ext))]) := by
  have hm : ext ∈ cfg.file_extentions := by simpa using hct
  simp [upload_img, hstrip, hm, hfr, hsv, hs3]

theorem upload_img_commit_fails (cfg : Config) (origName guid : String) (cands : List String)
    (now : Int) (env : UploadEnv) (st : SysState) (ext u : String)
    (hstrip : strip_extenstion origName = some ext)
    (hct : cfg.file_extentions.contains ext = true)
    (hfr : findFresh cands st.db = some u)
    (hsv : env.saveOk = true) (hs3 : env.s3Ok = true) (hdb : env.dbOk = false) :
    upload_img cfg true origName guid cands now env st =
      some (dbErrorMsg,
        { db := st.db,
          s3 := st.s3 ++
            [(cfg.aws_s3_bucket_id, pathJoin cfg.aws_s3_bucket_path (guid ++ "." ++ ext))],
          localFiles :=
            st.localFiles ++ [pathJoin cfg.upload_directory (guid ++ "." ++ ext)] },
        [Event.localSave (pathJoin cfg.upload_directory (guid ++ "." ++ ext)),
         Event.s3Put cfg.aws_s3_bucket_id
           (pathJoin cfg.aws_s3_bucket_path (guid ++ "." ++ ext))]) := by
  have hm : ext ∈ cfg.file_extentions := by simpa using hct
  simp [upload_img, hstrip, hm, hfr, hsv, hs3, hdb]

theorem upload_img_success (cfg : Config) (origName guid : String) (cands : List String)
    (now : Int) (env : UploadEnv) (st : SysState) (ext u : String)
    (hstrip : strip_extenstion origName = some ext)
    (hct : cfg.file_extentions.contains ext = true)
    (hfr : findFresh cands st.db = some u)
    (hsv : env.saveOk = true) (hs3 : env.s3Ok = true) (hdb : env.dbOk = true) :
    upload_img cfg true origName guid cands now env st =
      some (cfg.app_path ++ "/" ++ (u ++ ".png"),
        { db := st.db ++
            [{ image_guid := guid, bucket := cfg.aws_s3_bucket_id,
               filename := pathJoin cfg.aws_s3_bucket_path (guid ++ "." ++ ext), url := u,
               accessability := 1, passphrase := none, timestamp := now }],
          s3 := st.s3 ++
            [(cfg.aws_s3_bucket_id, pathJoin cfg.aws_s3_bucket_path (guid ++ "." ++ ext))],
          localFiles :=
            (st.localFiles ++ [pathJoin cfg.upload_directory (guid ++ "." ++ ext)]).filter
              (fun p => p != pathJoin cfg.upload_directory (guid ++ "." ++ ext)) },
        [Event.localSave (pathJoin cfg.upload_directory (guid ++ "." ++ ext)),
         Event.s3Put cfg.aws_s3_bucket_id
           (pathJoin cfg.aws_s3_bucket_path (guid ++ "." ++ ext)),
         Event.dbCreate u,
         Event.localRemove (pathJoin cfg.upload_directory (guid ++ "." ++ ext))]) := by
  have hm : ext ∈ cfg.file_extentions := by simpa using hct
  simp [upload_img, hstrip, hm, hfr, hsv, hs3, hdb, add_to_database]

/-- The shortcode produced by the generation loop is unused in the registry. -/
theorem findFresh_fresh {cands : List String} {db : List ImageRecord} {u : String}
    (h : findFresh cands db = some u) : existsUrl db u = false := by
  have hp := List.find?_some h
  simpa using hp

/-! Concrete fixtures used by witnesses and counterexamples. -/

/-- Sample configuration with a two-entry allow-list. -/
def cfg0 : Config :=
  { file_extentions := ["png", "jpg"], upload_directory := "uploads",
    app_path := "https://img.example", aws_s3_endpoint := "s3.example",
    aws_s3_bucket_id := "bkt", aws_s3_bucket_path := "imgs" }

/-- Empty initial state. -/
def st0 : SysState := { db := [], s3 := [], localFiles := [] }

/-- C1: a registry record is committed only after the object-store upload
has completed successfully: whenever the remote upload fails the registry
is left unchanged, and any record present after the operation either
predates it or references an object present in the object store. -/
theorem commit_only_after_remote_upload
    (cfg : Config) (fileProvided : Bool) (origName guid : String) (cands : List String)
    (now : Int) (env : UploadEnv) (st : SysState) (msg : String) (st2 : SysState)
    (tr : List Event)
    (h : upload_img cfg fileProvided origName guid cands now env st = some (msg, st2, tr)) :
    (env.s3Ok = false → st2.db = st.db) ∧
    (∀ r, r ∈ st2.db → r ∈ st.db ∨ ((r.bucket, r.filename) ∈ st2.s3 ∧ env.s3Ok = true)) := by
  cases fileProvided with
  | false =>
    rw [upload_img_no_file cfg origName guid cands now env st] at h
    simp only [Option.some.injEq, Prod.mk.injEq] at h
    obtain ⟨-, hst, -⟩ := h
    subst hst
    exact ⟨fun _ => rfl, fun r hr => Or.inl hr⟩
  | true =>
    cases hstrip : strip_extenstion origName with
    | none =>
      rw [upload_img_no_ext cfg origName guid cands now env st hstrip] at h
      simp only [Option.some.injEq, Prod.mk.injEq] at h
      obtain ⟨-, hst, -⟩ := h
      subst hst
      exact ⟨fun _ => rfl, fun r hr => Or.inl hr⟩
    | some ext =>
      cases hct : cfg.file_extentions.contains ext with
      | false =>
        rw [upload_img_bad_ext cfg origName guid cands now env st ext hstrip hct] at h
        simp only [Option.some.injEq, Prod.mk.injEq] at h
        obtain ⟨-, hst, -⟩ := h
        subst hst
        exact ⟨fun _ => rfl, fun r hr => Or.inl hr⟩
      | true =>
        cases hfr : findFresh cands st.db with
        | none =>
          rw [upload_img_no_fresh cfg origName guid cands now env st ext hstrip hct hfr] at h
          exact absurd h (by simp)
        | some u =>
          obtain ⟨sv, s3, dbk⟩ := env
          cases sv with
          | false =>
            rw [upload_img_save_fails cfg origName guid cands now ⟨false, s3, dbk⟩ st ext u
              hstrip hct hfr rfl] at h
            simp only [Option.some.injEq, Prod.mk.injEq] at h
            obtain ⟨-, hst, -⟩ := h
            subst hst
            exact ⟨fun _ => rfl, fun r hr => Or.inl hr⟩
          | true =>
            cases s3 with
            | false =>
              rw [upload_img_s3_fails cfg origName guid cands now ⟨true, false, dbk⟩ st ext u
                hstrip hct hfr rfl rfl] at h
              simp only [Option.some.injEq, Prod.mk.injEq] at h
              obtain ⟨-, hst, -⟩ := h
              subst hst
              exact ⟨fun _ => rfl, fun r hr => Or.inl hr⟩
            | true =>
              cases dbk with
              | false =>
                rw [upload_img_commit_fails cfg origName guid cands now ⟨true, true, false⟩ st
                  ext u hstrip hct hfr rfl rfl rfl] at h
                simp only [Option.some.injEq, Prod.mk.injEq] at h
                obtain ⟨-, hst, -⟩ := h
                subst hst
                exact ⟨fun hcontra => (nomatch hcontra), fun r hr => Or.inl hr⟩
              | true =>
                rw [upload_img_success cfg origName guid cands now ⟨true, true, true⟩ st
                  ext u hstrip hct hfr rfl rfl rfl] at h
                simp only [Option.some.injEq, Prod.mk.injEq] at h
                obtain ⟨-, hst, -⟩ := h
                subst hst
                refine ⟨fun hcontra => (nomatch hcontra), fun r hr => ?_⟩
                rcases List.mem_append.mp hr with hold | hnew
                · exact Or.inl hold
                · refine Or.inr ⟨?_, rfl⟩
                  have hr2 : r =
                      { image_guid := guid, bucket := cfg.aws_s3_bucket_id,
                        filename := pathJoin cfg.aws_s3_bucket_path (guid ++ "." ++ ext),
                        url := u, accessability := 1, passphrase := none,
                        timestamp := now } := by
                    simpa using hnew
                  subst hr2
                  exact List.mem_append_right _ (by simp)

/-- Closed instance of the C1 theorem: a run whose remote upload fails
leaves the registry in its initial (empty) state. -/
theorem commit_only_after_remote_upload_witness :
    (SysState.mk [] [] ["uploads/g1.jpg"]).db = st0.db :=
  (commit_only_after_remote_upload cfg0 true "cat.jpg" "g1" ["abc"] 100 ⟨true, false, true⟩
    st0 dbErrorMsg (SysState.mk [] [] ["uploads/g1.jpg"]) [Event.localSave "uploads/g1.jpg"]
    (by decide)).1 rfl

/-- C2 counterexample: when the remote upload raises after the file was
staged, the handler returns through the blanket `except` with the staged
file still present in the staging directory, contradicting the claim that
the staged file is removed on every terminal path. -/
theorem staged_file_left_on_failure_cex :
    (upload_img cfg0 true "cat.jpg" "g1" ["abc"] 100 ⟨true, false, true⟩ st0).map
        (fun x => x.2.1.localFiles) = some ["uploads/g1.jpg"] ∧
    pathJoin cfg0.upload_directory ("g1" ++ "." ++ "jpg") = "uploads/g1.jpg" := by
  exact ⟨by decide, by decide⟩

/-- C2 amended: the staged local file is removed on the fully successful
path, but when staging succeeded and the remote upload or the registry
commit then fails, the staged file remains after the handler returns. -/
theorem staged_file_cleanup_amended
    (cfg : Config) (origName guid : String) (cands : List String) (now : Int)
    (env : UploadEnv) (st : SysState) (ext u msg : String) (st2 : SysState) (tr : List Event)
    (hstrip : strip_extenstion origName = some ext)
    (hct : cfg.file_extentions.contains ext = true)
    (hfr : findFresh cands st.db = some u)
    (hsv : env.saveOk = true)
    (h : upload_img cfg true origName guid cands now env st = some (msg, st2, tr)) :
    ((env.s3Ok = true ∧ env.dbOk = true) →
      pathJoin cfg.upload_directory (guid ++ "." ++ ext) ∉ st2.localFiles) ∧
    ((env.s3Ok = false ∨ env.dbOk = false) →
      pathJoin cfg.upload_directory (guid ++ "." ++ ext) ∈ st2.localFiles) := by
  obtain ⟨sv, s3, dbk⟩ := env
  simp only at hsv
  subst hsv
  cases s3 with
  | false =>
    rw [upload_img_s3_fails cfg origName guid cands now ⟨true, false, dbk⟩ st ext u
      hstrip hct hfr rfl rfl] at h
    simp only [Option.some.injEq, Prod.mk.injEq] at h
    obtain ⟨-, hst, -⟩ := h
    subst hst
    exact ⟨fun hc => (nomatch hc.1), fun _ => by simp⟩
  | true =>
    cases dbk with
    | false =>
      rw [upload_img_commit_fails cfg origName guid cands now ⟨true, true, false⟩ st ext u
        hstrip hct hfr rfl rfl rfl] at h
      simp only [Option.some.injEq, Prod.mk.injEq] at h
      obtain ⟨-, hst, -⟩ := h
      subst hst
      exact ⟨fun hc => (nomatch hc.2), fun _ => by simp⟩
    | true =>
      rw [upload_img_success cfg origName guid cands now ⟨true, true, true⟩ st ext u
        hstrip hct hfr rfl rfl rfl] at h
      simp only [Option.some.injEq, Prod.mk.injEq] at h
      obtain ⟨-, hst, -⟩ := h
      subst hst
      refine ⟨fun _ hmem => ?_, fun hc => by rcases hc with hc | hc <;> exact nomatch hc⟩
      rw [List.mem_filter] at hmem
      simp at hmem

/-- Closed instance of the amended C2 theorem: in a failed run the staged
path is still present, in a successful run it is gone. -/
theorem staged_file_cleanup_amended_witness :
    pathJoin cfg0.upload_directory ("g1" ++ "." ++ "jpg") ∈
      (SysState.mk [] [] ["uploads/g1.jpg"]).localFiles :=
  (staged_file_cleanup_amended cfg0 "cat.jpg" "g1" ["abc"] 100 ⟨true, false, true⟩ st0
    "jpg" "abc" dbErrorMsg (SysState.mk [] [] ["uploads/g1.jpg"])
    [Event.localSave "uploads/g1.jpg"] (by decide) (by decide) (by decide) rfl
    (by decide)).2 (Or.inl rfl)

/-- C3: an upload whose original filename has no dot, or whose
(case-insensitive, last-dot) extension is not in the allow-list, fails
with the invalid-file-type message and performs no side effect: the state
is unchanged and the effect trace is empty. -/
theorem invalid_extension_rejected_before_side_effects
    (cfg : Config) (origName guid : String) (cands : List String) (now : Int)
    (env : UploadEnv) (st : SysState)
    (hbad : ('.' ∉ origName.toList) ∨
      (∃ ext, strip_extenstion origName = some ext ∧
        cfg.file_extentions.contains ext = false)) :
    upload_img cfg true origName guid cands now env st = some (invalidFileMsg cfg, st, []) := by
  rcases hbad with hnodot | ⟨ext, hstrip, hct⟩
  · have hstrip : strip_extenstion origName = none := by
      simp only [strip_extenstion, ite_eq_right_iff, reduceCtorEq, imp_false,
        Bool.not_eq_true]
      simpa using hnodot
    exact upload_img_no_ext cfg origName guid cands now env st hstrip
  · exact upload_img_bad_ext cfg origName guid cands now env st ext hstrip hct

/-- Closed instance of the C3 theorem at the disallowed name malware.exe. -/
theorem invalid_extension_rejected_witness :
    upload_img cfg0 true "malware.exe" "g1" ["abc"] 100 ⟨true, true, true⟩ st0 =
      some (invalidFileMsg cfg0, st0, []) :=
  invalid_extension_rejected_before_side_effects cfg0 "malware.exe" "g1" ["abc"] 100
    ⟨true, true, true⟩ st0 (Or.inr ⟨"exe", by decide, by decide⟩)

/-- C4 counterexample: an upload in which the registry insert raises (a
commit-time uniqueness violation included) returns the generic database
error and commits no record: the collision is surfaced to the caller and
no internal retry with a fresh shortcode happens. -/
theorem commit_collision_not_retried_cex :
    (upload_img cfg0 true "cat.jpg" "g1" ["abc", "def"] 100 ⟨true, true, false⟩ st0).map
        (fun x => x.1) = some dbErrorMsg ∧
    (upload_img cfg0 true "cat.jpg" "g1" ["abc", "def"] 100 ⟨true, true, false⟩ st0).map
        (fun x => x.2.1.db) = some [] ∧
    dbErrorMsg ≠ cfg0.app_path ++ "/" ++ ("abc" ++ ".png") ∧
    dbErrorMsg ≠ cfg0.app_path ++ "/" ++ ("def" ++ ".png") :=
  ⟨by decide, by decide, by decide, by decide⟩

/-- C4 amended: uniqueness is ensured only by the pre-commit
generate-and-check loop, whose chosen shortcode is indeed unused in the
registry; a failure of the commit itself (a uniqueness violation
included) is not retried: the blanket handler returns the generic
database error and the registry is unchanged. -/
theorem commit_collision_surfaces_generic_error
    (cfg : Config) (origName guid : String) (cands : List String) (now : Int)
    (st : SysState) (ext u : String)
    (hstrip : strip_extenstion origName = some ext)
    (hct : cfg.file_extentions.contains ext = true)
    (hfr : findFresh cands st.db = some u) :
    existsUrl st.db u = false ∧
    ∃ st2 tr, upload_img cfg true origName guid cands now ⟨true, true, false⟩ st =
        some (dbErrorMsg, st2, tr) ∧ st2.db = st.db :=
  ⟨findFresh_fresh hfr, _, _,
    upload_img_commit_fails cfg origName guid cands now ⟨true, true, false⟩ st ext u
      hstrip hct hfr rfl rfl rfl, rfl⟩

/-- Closed instance of the amended C4 theorem. -/
theorem commit_collision_surfaces_generic_error_witness :
    existsUrl st0.db "abc" = false ∧
    ∃ st2 tr, upload_img cfg0 true "cat.jpg" "g1" ["abc", "def"] 100 ⟨true, true, false⟩ st0 =
        some (dbErrorMsg, st2, tr) ∧ st2.db = st0.db :=
  commit_collision_surfaces_generic_error cfg0 "cat.jpg" "g1" ["abc", "def"] 100 st0 "jpg" "abc"
    (by decide) (by decide) (by decide)

/-- C5: a fully successful upload returns exactly the string
app_path ++ "/" ++ shortcode ++ ".png" where the shortcode is the url of
the newly committed record; the png display suffix is appended whatever
the real extension of the uploaded file was. -/
theorem success_returns_app_path_shortcode_png
    (cfg : Config) (origName guid : String) (cands : List String) (now : Int)
    (env : UploadEnv) (st : SysState) (ext u : String)
    (hstrip : strip_extenstion origName = some ext)
    (hct : cfg.file_extentions.contains ext = true)
    (hfr : findFresh cands st.db = some u)
    (hsv : env.saveOk = true) (hs3 : env.s3Ok = true) (hdb : env.dbOk = true) :
    ∃ st2 tr, upload_img cfg true origName guid cands now env st =
        some (cfg.app_path ++ "/" ++ (u ++ ".png"), st2, tr) ∧
      st2.db = st.db ++
        [{ image_guid := guid, bucket := cfg.aws_s3_bucket_id,
           filename := pathJoin cfg.aws_s3_bucket_path (guid ++ "." ++ ext), url := u,
           accessability := 1, passphrase := none, timestamp := now }] :=
  ⟨_, _, upload_img_success cfg origName guid cands now env st ext u
    hstrip hct hfr hsv hs3 hdb, rfl⟩

/-- Closed instance of the C5 theorem: uploading cat.jpg yields the png
display link for the committed shortcode abc. -/
theorem success_returns_app_path_shortcode_png_witness :
    ∃ st2 tr, upload_img cfg0 true "cat.jpg" "g1" ["abc"] 100 ⟨true, true, true⟩ st0 =
        some (cfg0.app_path ++ "/" ++ ("abc" ++ ".png"), st2, tr) ∧
      st2.db = st0.db ++
        [{ image_guid := "g1", bucket := cfg0.aws_s3_bucket_id,
           filename := pathJoin cfg0.aws_s3_bucket_path ("g1" ++ "." ++ "jpg"), url := "abc",
           accessability := 1, passphrase := none, timestamp := 100 }] :=
  success_returns_app_path_shortcode_png cfg0 "cat.jpg" "g1" ["abc"] 100 ⟨true, true, true⟩
    st0 "jpg" "abc" (by decide) (by decide) (by decide) rfl rfl rfl

/-- C10: once validation has passed, every failing run — staging failure,
remote-upload failure, or registry-commit failure — returns the same
single fixed generic error message, so the caller cannot tell the failure
modes apart. -/
theorem post_validation_failures_indistinguishable
    (cfg : Config) (origName guid : String) (cands : List String) (now : Int)
    (env : UploadEnv) (st : SysState) (ext u : String)
    (hstrip : strip_extenstion origName = some ext)
    (hct : cfg.file_extentions.contains ext = true)
    (hfr : findFresh cands st.db = some u)
    (hfail : env.saveOk = false ∨ env.s3Ok = false ∨ env.dbOk = false) :
    ∃ st2 tr, upload_img cfg true origName guid cands now env st =
      some (dbErrorMsg, st2, tr) := by
  obtain ⟨sv, s3, dbk⟩ := env
  cases sv with
  | false =>
    exact ⟨_, _, upload_img_save_fails cfg origName guid cands now ⟨false, s3, dbk⟩ st ext u
      hstrip hct hfr rfl⟩
  | true =>
    cases s3 with
    | false =>
      exact ⟨_, _, upload_img_s3_fails cfg origName guid cands now ⟨true, false, dbk⟩ st ext u
        hstrip hct hfr rfl rfl⟩
    | true =>
      cases dbk with
      | false =>
        exact ⟨_, _, upload_img_commit_fails cfg origName guid cands now ⟨true, true, false⟩ st
          ext u hstrip hct hfr rfl rfl rfl⟩
      | true =>
        rcases hfail with hf | hf | hf <;> simp at hf

/-- Closed instance of the C10 theorem. -/
theorem post_validation_failures_indistinguishable_witness :
    ∃ st2 tr, upload_img cfg0 true "cat.jpg" "g1" ["abc"] 100 ⟨true, false, true⟩ st0 =
      some (dbErrorMsg, st2, tr) :=
  post_validation_failures_indistinguishable cfg0 "cat.jpg" "g1" ["abc"] 100
    ⟨true, false, true⟩ st0 "jpg" "abc" (by decide) (by decide) (by decide)
    (Or.inr (Or.inl rfl))

/-! Retrieval: the lookup strips everything from the first dot on. -/

theorem takeWhile_append_stop (p : Char → Bool) (x : Char) (l m : List Char)
    (hx : p x = false) : (l ++ x :: m).takeWhile p = l.takeWhile p := by
  induction l with
  | nil => simp [List.takeWhile_cons, hx]
  | cons c cs ih => cases hc : p c <;> simp [List.takeWhile_cons, hc, ih]

theorem stripAfterFirstDot_append (s ext : String) :
    stripAfterFirstDot (s ++ "." ++ ext) = stripAfterFirstDot s := by
  unfold stripAfterFirstDot
  have hdata : (s ++ "." ++ ext).toList = s.toList ++ '.' :: ext.toList := by
    show (s ++ "." ++ ext).data = s.data ++ '.' :: ext.data
    simp
  rw [hdata]
  have hcond : (s.toList ++ '.' :: ext.toList).contains '.' = true := by simp
  rw [if_pos hcond, takeWhile_append_stop _ _ _ _ (by decide)]
  cases hc : s.toList.contains '.' with
  | true => simp
  | false =>
    simp only [Bool.false_eq_true, if_false]
    have hts : s.toList.takeWhile (fun c => c != '.') = s.toList := by
      rw [List.takeWhile_eq_self_iff]
      intro c hcmem
      have hnm : '.' ∉ s.toList := by simpa using hc
      simp only [bne_iff_ne, ne_eq]
      intro hcd
      exact hnm (hcd ▸ hcmem)
    rw [hts]
    rfl

/-- C6: resolving a shortcode with a trailing extension and resolving the
bare shortcode perform the same lookup (the extension is stripped before
querying); when no record with the looked-up shortcode exists the result
is NotFound, and otherwise it is the URL built from the configured
endpoint and the record's bucket and filename fields. -/
theorem resolve_strips_extension_and_builds_url
    (cfg : Config) (db : List ImageRecord) (s ext : String) :
    get_image cfg db (s ++ "." ++ ext) = get_image cfg db s ∧
    get_image cfg db s =
      (match db.find? (fun r => r.url == stripAfterFirstDot s) with
       | none => GetResult.notFound
       | some r =>
         GetResult.found
           ("http://" ++ cfg.aws_s3_endpoint ++ "/" ++ r.bucket ++ "/" ++ r.filename)) :=
  ⟨by unfold get_image; rw [stripAfterFirstDot_append], rfl⟩

/-! Listing order: stable sort by descending timestamp. -/

instance : IsTotal ImageModel keyLe := by
  constructor
  intro a b
  unfold keyLe
  exact le_total _ _

instance : IsTrans ImageModel keyLe := by
  constructor
  intro a b c hab hbc
  unfold keyLe at hab hbc ⊢
  exact le_trans hab hbc

theorem get_images_pairwise (cfg : Config) (db : List ImageRecord) :
    (get_images cfg db).Pairwise (fun a b => b.timestamp ≤ a.timestamp) := by
  have hs : (get_images cfg db).Sorted keyLe := List.sorted_insertionSort keyLe _
  refine hs.imp ?_
  intro a b hab
  unfold keyLe at hab
  omega

theorem insertionSort_append_newest (l : List ImageModel) (m : ImageModel)
    (h : ∀ y ∈ l, y.timestamp < m.timestamp) :
    List.insertionSort keyLe (l ++ [m]) = m :: List.insertionSort keyLe l := by
  induction l with
  | nil => simp [List.insertionSort, List.orderedInsert]
  | cons x xs ih =>
    have hx : x.timestamp < m.timestamp := h x (by simp)
    have hxs : ∀ y ∈ xs, y.timestamp < m.timestamp := fun y hy => h y (by simp [hy])
    have hns : ¬ keyLe x m := by unfold keyLe; omega
    simp only [List.cons_append, List.insertionSort, List.append_eq]
    rw [ih hxs]
    simp [List.orderedInsert, hns]

/-- Fixture record with timestamp 5 and shortcode aaa. -/
def recA : ImageRecord :=
  { image_guid := "ga", bucket := "bkt", filename := "imgs/ga.png", url := "aaa",
    accessability := 1, passphrase := none, timestamp := 5 }

/-- Fixture record with the same timestamp 5 and shortcode bbb. -/
def recB : ImageRecord :=
  { image_guid := "gb", bucket := "bkt", filename := "imgs/gb.png", url := "bbb",
    accessability := 1, passphrase := none, timestamp := 5 }

/-- Fixture record with the strictly larger timestamp 9 and shortcode ccc. -/
def recC : ImageRecord :=
  { image_guid := "gc", bucket := "bkt", filename := "imgs/gc.png", url := "ccc",
    accessability := 1, passphrase := none, timestamp := 9 }

/-- C7 counterexample: a record inserted with a timestamp equal to an
existing record's (the current second ties with an earlier upload) is NOT
listed first: the stable sort keeps the older equal-timestamp record
ahead of it. -/
theorem listing_tie_not_first_cex :
    recA.timestamp ≤ recB.timestamp ∧
    (get_images cfg0 ([recA] ++ [recB])).head? = some (toImageModel cfg0 recA) ∧
    toImageModel cfg0 recA ≠ toImageModel cfg0 recB :=
  ⟨by decide, by decide, by decide⟩

/-- C7 amended: the listing is sorted by timestamp descending, and ties
between equal timestamps keep the registry enumeration order (the sort is
stable and pure, so repeated calls on the same registry state give the
same listing); a newly inserted record is listed first exactly when its
timestamp is strictly larger than every existing record's timestamp —
with an equal timestamp it is listed after the existing ones. -/
theorem listing_sorted_and_strictly_newest_first :
    (∀ cfg db, (get_images cfg db).Pairwise (fun a b => b.timestamp ≤ a.timestamp)) ∧
    (∀ cfg db rec, (∀ r ∈ db, r.timestamp < rec.timestamp) →
      get_images cfg (db ++ [rec]) = toImageModel cfg rec :: get_images cfg db) := by
  constructor
  · exact get_images_pairwise
  · intro cfg db rec h
    unfold get_images
    rw [List.map_append]
    rw [show (List.map (toImageModel cfg) [rec]) = [toImageModel cfg rec] from rfl]
    rw [insertionSort_append_newest]
    intro y hy
    simp only [List.mem_map] at hy
    obtain ⟨r, hr, rfl⟩ := hy
    simpa [toImageModel] using h r hr

/-- Closed instance of the amended C7 theorem: a strictly newer record is
listed first. -/
theorem listing_sorted_and_strictly_newest_first_witness :
    get_images cfg0 ([recA] ++ [recC]) = toImageModel cfg0 recC :: get_images cfg0 [recA] :=
  listing_sorted_and_strictly_newest_first.2 cfg0 [recA] recC (by decide)

/-! Sanitizer properties: `secure_filename` is idempotent, so its image is
exactly its set of fixed points. -/

theorem dropWhile_dropWhile (p : Char → Bool) (l : List Char) :
    (l.dropWhile p).dropWhile p = l.dropWhile p := by
  induction l with
  | nil => rfl
  | cons x xs ih =>
    by_cases hx : p x
    · rw [List.dropWhile_cons_of_pos hx]
      exact ih
    · rw [List.dropWhile_cons_of_neg hx, List.dropWhile_cons_of_neg hx]

theorem dropWhile_head_false (p : Char → Bool) (l : List Char) (c : Char) (cs : List Char)
    (h : l.dropWhile p = c :: cs) : p c = false := by
  induction l with
  | nil => cases h
  | cons x xs ih =>
    by_cases hx : p x
    · rw [List.dropWhile_cons_of_pos hx] at h
      exact ih h
    · rw [List.dropWhile_cons_of_neg hx] at h
      cases h
      exact Bool.not_eq_true _ ▸ (by simpa using hx)

theorem stripEdges_decomp (l : List Char) :
    ∃ t, l.dropWhile stripDotUnderscore = stripEdges l ++ t := by
  unfold stripEdges
  refine ⟨((l.dropWhile stripDotUnderscore).reverse.takeWhile stripDotUnderscore).reverse, ?_⟩
  have h := List.takeWhile_append_dropWhile
    (p := stripDotUnderscore) (l := (l.dropWhile stripDotUnderscore).reverse)
  calc l.dropWhile stripDotUnderscore
      = (l.dropWhile stripDotUnderscore).reverse.reverse := by rw [List.reverse_reverse]
    _ = ((l.dropWhile stripDotUnderscore).reverse.takeWhile stripDotUnderscore ++
          (l.dropWhile stripDotUnderscore).reverse.dropWhile stripDotUnderscore).reverse := by
          rw [h]
    _ = ((l.dropWhile stripDotUnderscore).reverse.dropWhile stripDotUnderscore).reverse ++
          ((l.dropWhile stripDotUnderscore).reverse.takeWhile stripDotUnderscore).reverse := by
          rw [List.reverse_append]

theorem stripEdges_head_false (l : List Char) (c : Char) (cs : List Char)
    (h : stripEdges l = c :: cs) : stripDotUnderscore c = false := by
  obtain ⟨t, ht⟩ := stripEdges_decomp l
  rw [h] at ht
  exact dropWhile_head_false stripDotUnderscore l c (cs ++ t) (by simpa using ht)

theorem stripEdges_dropWhile_self (l : List Char) :
    (stripEdges l).dropWhile stripDotUnderscore = stripEdges l := by
  cases hs : stripEdges l with
  | nil => rfl
  | cons c cs =>
    rw [List.dropWhile_cons_of_neg]
    simp [stripEdges_head_false l c cs hs]

theorem stripEdges_idem (l : List Char) : stripEdges (stripEdges l) = stripEdges l := by
  have h2 : (stripEdges l).reverse =
      (l.dropWhile stripDotUnderscore).reverse.dropWhile stripDotUnderscore := by
    unfold stripEdges
    rw [List.reverse_reverse]
  show (((stripEdges l).dropWhile stripDotUnderscore).reverse.dropWhile
      stripDotUnderscore).reverse = stripEdges l
  rw [stripEdges_dropWhile_self, h2, dropWhile_dropWhile]
  rfl

theorem mem_of_mem_stripEdges {c : Char} {l : List Char} (h : c ∈ stripEdges l) : c ∈ l := by
  unfold stripEdges at h
  rw [List.mem_reverse] at h
  have h1 := (List.dropWhile_sublist
    (l := (l.dropWhile stripDotUnderscore).reverse) stripDotUnderscore).subset h
  rw [List.mem_reverse] at h1
  exact (List.dropWhile_sublist (l := l) stripDotUnderscore).subset h1

theorem goodChar_spec (c : Char) (h : goodChar c = true) :
    decide (c.toNat < 128) = true ∧ (c == '/') = false ∧ pySpace c = false := by
  have hp := of_decide_eq_true h
  have hn : (65 ≤ c.toNat ∧ c.toNat ≤ 90) ∨ (97 ≤ c.toNat ∧ c.toNat ≤ 122) ∨
      (48 ≤ c.toNat ∧ c.toNat ≤ 57) ∨ c.toNat = 95 ∨ c.toNat = 46 ∨ c.toNat = 45 := by
    rcases hp with h1 | h1 | h1 | h1 | h1 | h1
    · exact Or.inl h1
    · exact Or.inr (Or.inl h1)
    · exact Or.inr (Or.inr (Or.inl h1))
    · subst h1
      exact Or.inr (Or.inr (Or.inr (Or.inl (by decide))))
    · subst h1
      exact Or.inr (Or.inr (Or.inr (Or.inr (Or.inl (by decide)))))
    · subst h1
      exact Or.inr (Or.inr (Or.inr (Or.inr (Or.inr (by decide)))))
  have htn : ∀ d : Char, c.toNat ≠ d.toNat → (c == d) = false := by
    intro d hd
    rw [beq_eq_false_iff_ne]
    intro hc
    exact hd (hc ▸ rfl)
  have hnum : c.toNat ≠ 47 ∧ c.toNat ≠ 32 ∧ c.toNat ≠ 9 ∧ c.toNat ≠ 10 ∧
      c.toNat ≠ 13 ∧ c.toNat ≠ 11 ∧ c.toNat ≠ 12 ∧ c.toNat < 128 := by
    rcases hn with h1 | h1 | h1 | h1 | h1 | h1 <;> omega
  obtain ⟨h47, h32, h9, h10, h13, h11, h12, h128⟩ := hnum
  refine ⟨decide_eq_true h128, ?_, ?_⟩
  · exact htn '/' (by rw [show ('/').toNat = 47 from rfl]; exact h47)
  · unfold pySpace
    rw [htn ' ' (by rw [show (' ').toNat = 32 from rfl]; exact h32),
      htn '\t' (by rw [show ('\t').toNat = 9 from rfl]; exact h9),
      htn '\n' (by rw [show ('\n').toNat = 10 from rfl]; exact h10),
      htn '\r' (by rw [show ('\r').toNat = 13 from rfl]; exact h13),
      htn '\x0b' (by rw [show ('\x0b').toNat = 11 from rfl]; exact h11),
      htn '\x0c' (by rw [show ('\x0c').toNat = 12 from rfl]; exact h12)]
    rfl

theorem wsSplit_no_space (l : List Char) (h : ∀ c ∈ l, pySpace c = false) :
    wsSplit l = [l] := by
  induction l with
  | nil => rfl
  | cons x xs ih =>
    have hx : pySpace x = false := h x (by simp)
    have hxs : wsSplit xs = [xs] := ih (fun c hc => h c (by simp [hc]))
    unfold wsSplit
    rw [if_neg (by simp [hx]), hxs]

/-- On a list of characters that the sanitizer keeps unchanged
(every character in the allowed class), the pipeline reduces to the final
edge-stripping alone. -/
theorem sanitizeList_of_clean (l : List Char) (hclean : ∀ c ∈ l, goodChar c = true) :
    sanitizeList l = stripEdges l := by
  unfold sanitizeList
  have hascii : l.filter (fun c => decide (c.toNat < 128)) = l := by
    rw [List.filter_eq_self]
    intro c hc
    exact (goodChar_spec c (hclean c hc)).1
  rw [hascii]
  have hmap : l.map (fun c => if c == '/' then ' ' else c) = l := by
    have := List.map_congr_left (l := l) (f := fun c => if c == '/' then ' ' else c) (g := id)
      (fun c hc => by simp [(goodChar_spec c (hclean c hc)).2.1])
    simpa using this
  rw [hmap]
  have hws : wsSplit l = [l] := wsSplit_no_space l
    (fun c hc => (goodChar_spec c (hclean c hc)).2.2)
  rw [hws]
  by_cases hl : l = []
  · subst hl
    rfl
  · have hfil : ([l] : List (List Char)).filter (fun q => !q.isEmpty) = [l] := by
      simp [hl]
    rw [hfil]
    have hint : List.intercalate ['_'] [l] = l := by
      simp [List.intercalate]
    rw [hint, List.filter_eq_self.mpr hclean]

theorem sanitizeList_idem (l : List Char) :
    sanitizeList (sanitizeList l) = sanitizeList l := by
  have hclean : ∀ c ∈ sanitizeList l, goodChar c = true := by
    intro c hc
    unfold sanitizeList at hc
    exact (List.mem_filter.mp (mem_of_mem_stripEdges hc)).2
  rw [sanitizeList_of_clean _ hclean]
  unfold sanitizeList
  rw [stripEdges_idem]

/-- Idempotence of the sanitizer: sanitizing an already-sanitized name
changes nothing, so the image of `secure_filename` is its fixed points. -/
theorem secure_filename_idem (s : String) :
    secure_filename (secure_filename s) = secure_filename s := by
  unfold secure_filename
  rw [show (String.mk (sanitizeList s.toList)).toList = sanitizeList s.toList from rfl,
    sanitizeList_idem]

theorem mem_removeFirst_of_not (p : ImageRecord → Bool) (l : List ImageRecord)
    (r : ImageRecord) (hr : r ∈ l) (hp : p r = false) : r ∈ removeFirst p l := by
  induction l with
  | nil => cases hr
  | cons x xs ih =>
    by_cases hx : p x
    · rw [show removeFirst p (x :: xs) = xs from by simp [removeFirst, hx]]
      rcases List.mem_cons.mp hr with hrx | hmem
      · subst hrx
        rw [hp] at hx
        cases hx
      · exact hmem
    · rw [show removeFirst p (x :: xs) = x :: removeFirst p xs from by simp [removeFirst, hx]]
      rcases List.mem_cons.mp hr with hrx | hmem
      · exact hrx ▸ List.mem_cons_self _ _
      · exact List.mem_cons_of_mem _ (ih hmem)

theorem find?_removeFirst_none (p : ImageRecord → Bool) (l : List ImageRecord)
    (a : ImageRecord) (hlen : (l.filter p).length ≤ 1) (hfind : l.find? p = some a) :
    (removeFirst p l).find? p = none := by
  induction l with
  | nil => cases hfind
  | cons x xs ih =>
    by_cases hx : p x
    · rw [show removeFirst p (x :: xs) = xs from by simp [removeFirst, hx]]
      rw [List.find?_eq_none]
      intro y hy hpy
      have h1 : (List.filter p (x :: xs)).length = (List.filter p xs).length + 1 := by
        simp [List.filter_cons, hx]
      have h2 : y ∈ xs.filter p := List.mem_filter.mpr ⟨hy, hpy⟩
      have h3 : 0 < (xs.filter p).length :=
        List.length_pos.mpr (List.ne_nil_of_mem h2)
      omega
    · rw [show removeFirst p (x :: xs) = x :: removeFirst p xs from by simp [removeFirst, hx]]
      rw [List.find?_cons_of_neg _ hx]
      have hfind2 : xs.find? p = some a := by
        rwa [List.find?_cons_of_neg _ hx] at hfind
      have hlen2 : (xs.filter p).length ≤ 1 := by
        have : List.filter p (x :: xs) = List.filter p xs := by
          simp [List.filter_cons, hx]
        rwa [this] at hlen
      exact ih hlen2 hfind2

/-- Fixture record whose shortcode a_b is a fixed point of the sanitizer. -/
def recUnd : ImageRecord :=
  { image_guid := "gu", bucket := "bkt", filename := "imgs/gu.png", url := "a_b",
    accessability := 1, passphrase := none, timestamp := 7 }

/-- State holding only `recUnd` and its remote object. -/
def stUnd : SysState :=
  { db := [recUnd], s3 := [("bkt", "imgs/gu.png")], localFiles := [] }

/-- Fixture record whose shortcode a/b is NOT a fixed point of the
sanitizer (it sanitizes to a_b). -/
def recSlash : ImageRecord :=
  { image_guid := "gs", bucket := "bkt", filename := "imgs/gs.png", url := "a/b",
    accessability := 1, passphrase := none, timestamp := 8 }

/-- State holding only `recSlash`. -/
def stSlash : SysState :=
  { db := [recSlash], s3 := [("bkt", "imgs/gs.png")], localFiles := [] }

/-- C9: the deletion route sanitizes the caller-supplied shortcode before
the registry lookup: deleting via a raw name and via its sanitized form
are the same operation (sanitizing is idempotent), and a record whose
stored shortcode is not a fixed point of the sanitizer survives every
deletion request, whatever the input string. -/
theorem delete_looks_up_sanitized_form :
    (∀ cfg f rd st, f ≠ "" → secure_filename f ≠ "" →
      delete_img cfg f rd st = delete_img cfg (secure_filename f) rd st) ∧
    (∀ cfg f rd st r, r ∈ st.db → secure_filename r.url ≠ r.url →
      r ∈ (delete_img cfg f rd st).2.1.db) := by
  constructor
  · intro cfg f rd st hf hsf
    simp only [delete_img]
    rw [if_neg hf, if_neg hsf, secure_filename_idem]
  · intro cfg f rd st r hr hne
    simp only [delete_img]
    by_cases hf : f = ""
    · rw [if_pos hf]
      exact hr
    · rw [if_neg hf]
      cases hfind : st.db.find? (fun q => q.url == secure_filename f) with
      | none => exact hr
      | some image =>
        show r ∈ removeFirst (fun q => q.url == secure_filename f) st.db
        refine mem_removeFirst_of_not _ _ _ hr ?_
        rw [beq_eq_false_iff_ne]
        intro hurl
        apply hne
        rw [hurl]
        exact secure_filename_idem f

/-- Closed instance of the C9 theorem: deleting a/b equals deleting a_b,
and the record with the unsanitizable shortcode a/b survives a deletion
request. -/
theorem delete_looks_up_sanitized_form_witness :
    delete_img cfg0 "a/b" none stUnd = delete_img cfg0 (secure_filename "a/b") none stUnd ∧
    recSlash ∈ (delete_img cfg0 "x" none stSlash).2.1.db :=
  ⟨delete_looks_up_sanitized_form.1 cfg0 "a/b" none stUnd (by decide) (by decide),
   delete_looks_up_sanitized_form.2 cfg0 "x" none stSlash recSlash (by decide) (by decide)⟩

/-- C8 counterexample: requesting deletion of a/b, a shortcode for which
no record exists, does not report NotFound and mutates the state: the
sanitizer maps a/b to a_b and the record stored under a_b is deleted. -/
theorem delete_nonexistent_mutates_cex :
    existsUrl stUnd.db "a/b" = false ∧
    (delete_img cfg0 "a/b" none stUnd).1 ≠ DeleteResult.notFound ∧
    (delete_img cfg0 "a/b" none stUnd).2.1 ≠ stUnd :=
  ⟨by decide, by decide, by decide⟩

/-- C8 amended: for a deletion request whose shortcode is a fixed point of
the sanitizer (and dot-free, with shortcodes unique in the registry): if
no record with that shortcode exists the operation reports NotFound and
changes nothing; if the record exists, the remote object is deleted from
the object store and then the record is deleted (the effect trace shows
the order), after which retrieval of that shortcode reports NotFound. -/
theorem delete_existing_removes_both_amended
    (cfg : Config) (s : String) (rd : Option String) (st : SysState)
    (hs : secure_filename s = s) (hne : s ≠ "")
    (hnodot : s.toList.contains '.' = false)
    (huniq : (st.db.filter (fun r => r.url == s)).length ≤ 1) :
    (st.db.find? (fun r => r.url == s) = none →
      delete_img cfg s rd st = (DeleteResult.notFound, st, [])) ∧
    (∀ image, st.db.find? (fun r => r.url == s) = some image →
      (delete_img cfg s rd st).2.1.s3 =
        st.s3.filter (fun o => o != (cfg.aws_s3_bucket_id, image.filename)) ∧
      (delete_img cfg s rd st).2.2 =
        [Event.s3Delete cfg.aws_s3_bucket_id image.filename, Event.dbDelete image.url] ∧
      get_image cfg (delete_img cfg s rd st).2.1.db s = GetResult.notFound) := by
  constructor
  · intro hfind
    simp only [delete_img]
    rw [if_neg hne, hs, hfind]
  · intro image hfind
    simp only [delete_img]
    rw [if_neg hne, hs, hfind]
    refine ⟨rfl, rfl, ?_⟩
    show get_image cfg (removeFirst (fun r => r.url == s) st.db) s = GetResult.notFound
    simp only [get_image]
    have hstrip : stripAfterFirstDot s = s := by
      unfold stripAfterFirstDot
      rw [if_neg]
      simpa using hnodot
    rw [hstrip]
    rw [find?_removeFirst_none (fun r => r.url == s) st.db image huniq hfind]

/-- Closed instance of the amended C8 theorem: deleting an absent
shortcode reports NotFound and changes nothing; after deleting a_b its
retrieval reports NotFound. -/
theorem delete_existing_removes_both_amended_witness :
    delete_img cfg0 "a_b" none st0 = (DeleteResult.notFound, st0, []) ∧
    get_image cfg0 (delete_img cfg0 "a_b" none stUnd).2.1.db "a_b" = GetResult.notFound :=
  ⟨(delete_existing_removes_both_amended cfg0 "a_b" none st0 (by decide) (by decide)
      (by decide) (by decide)).1 (by decide),
   ((delete_existing_removes_both_amended cfg0 "a_b" none stUnd (by decide) (by decide)
      (by decide) (by decide)).2 recUnd (by decide)).2.2⟩

end ImageServer
